import Mathlib

/-! Verification of snakeses.c: arena, item registry, snake body and one game tick.

A shallow embedding of the core of `snakeses.c`.

* The doubly linked segment chain of a snake is the list of its segments from
  head to tail.  A snake always owns a head segment (`snake->head` is
  dereferenced unconditionally by every function), so a snake is its head
  segment together with the chain `head->next, ..., tail`.
* The singly linked item list of an arena is the list of its items in link
  order.
* Coordinates are C `short`s.  A value that the program computes and stores
  into a `short` goes through `toShort`, the 16 bit two's complement wrap.
* `rand()` is the list of the values its successive calls return.
-/

namespace Snakeses

/-! ## Data model -/

/-- The value a C `short` holds after an `int` is stored into it
(16 bit two's complement). -/
def toShort (n : Int) : Int := (n + 32768) % 65536 - 32768

/-- The values a C `short` can hold. -/
def isShort (n : Int) : Prop := -32768 ≤ n ∧ n ≤ 32767

instance (n : Int) : Decidable (isShort n) := by
  unfold isShort; exact inferInstance

/-- Source `enum dir`. -/
inductive dir_t where
  | NONE
  | UP
  | RIGHT
  | DOWN
  | LEFT
deriving DecidableEq

/-- Source `enum status`. -/
inductive status_t where
  | ALIVE
  | DEAD
deriving DecidableEq

/-- Source `enum itemtype`. -/
inductive itemtype_t where
  | ITEM_FOOD
  | ITEM_WALL
deriving DecidableEq

/-- Source `struct segment`: the cell of one segment.  The `prev`/`next`
links are the position of the segment in the list of segments. -/
structure segment_t where
  y : Int
  x : Int
deriving DecidableEq

/-- Source `struct snake`.  `head` is the segment `snake->head`, `chain` the
segments reached from `snake->head->next` by following `next`; the last
segment of `head :: chain` is `snake->tail`. -/
structure snake_t where
  dir : dir_t
  status : status_t
  head : segment_t
  chain : List segment_t
deriving DecidableEq

/-- Source `struct item`. -/
structure item_t where
  type : itemtype_t
  y : Int
  x : Int
deriving DecidableEq

/-- Source `struct arena`; `items` is the linked list `arena->items`. -/
structure arena_t where
  top : Int
  right : Int
  bottom : Int
  left : Int
  items : List item_t
deriving DecidableEq

/-- The segments of a snake from head (index 0) to tail (last). -/
def segments (snake : snake_t) : List segment_t := snake.head :: snake.chain

/-- The last node of the chain that starts with node `s` and continues with
`rest`. -/
def lastSeg : segment_t → List segment_t → segment_t
  | s, [] => s
  | _, c :: rest => lastSeg c rest

/-- The segment `snake->tail`. -/
def tail (snake : snake_t) : segment_t := lastSeg snake.head snake.chain

/-! ## Item registry -/

/-- Source `add_item`: a new item is linked after the last item (or becomes
the list when the list is empty); the function returns 1. -/
def add_item (y x : Int) (type : itemtype_t) (arena : arena_t) : Int × arena_t :=
  (1, { arena with items := arena.items ++ [{ type := type, y := y, x := x }] })

/-- The loop and the unlinking of source `remove_item`: `cur` runs along the
list until the first item with the cell of `item`; that item is unlinked.
When the loop runs off the end of the list, `cur` is null and `cur->next`
is dereferenced: the result is undefined, here `none`. -/
def unlink (item : item_t) : List item_t → Option (List item_t)
  | [] => none
  | cur :: rest =>
    if item.y = cur.y ∧ item.x = cur.x then some rest
    else (unlink item rest).map (fun l => cur :: l)

/-- Source `remove_item`.  The pointer `item` is given by the record it points
to; a null pointer is `none` and leaves the arena as it is (the guard
`if (item && arena)`).  A non-null `item` stands for the pointer the program
passes, the node `on_arena_item` returned, which is the first node on its
cell: the node the loop unlinks is then the node `free(item)` releases, and the
registry that is left is the list without that node.  (Storage is not part of
the model.  A pointer to a later node on an already occupied cell, for which
the freed node would stay linked, is no argument of this model.)  The result
`none` is undefined behaviour (see `unlink`). -/
def remove_item (item : Option item_t) (arena : arena_t) : Option arena_t :=
  match item with
  | none => some arena
  | some it =>
    match unlink it arena.items with
    | none => none
    | some l => some { arena with items := l }

/-- The loop of source `on_arena_item` over the item list. -/
def findItem (y x : Int) : List item_t → Option item_t
  | [] => none
  | cur :: rest => if y = cur.y ∧ x = cur.x then some cur else findItem y x rest

/-- Source `on_arena_item`: the first item at cell `(y, x)`, or null. -/
def on_arena_item (y x : Int) (arena : arena_t) : Option item_t :=
  findItem y x arena.items

/-! ## Snake body -/

/-- Source `add_segment`: a new segment with the cell of the tail is linked
after the tail and becomes the tail.  (The C function returns the constant 0,
which no caller reads.) -/
def add_segment (snake : snake_t) : snake_t :=
  { snake with chain := snake.chain ++ [{ y := (tail snake).y, x := (tail snake).x }] }

/-- Source `die`. -/
def die (snake : snake_t) : snake_t := { snake with status := status_t.DEAD }

/-- Source `on_snake_head`. -/
def on_snake_head (y x : Int) (snake : snake_t) : Int :=
  if y = snake.head.y ∧ x = snake.head.x then 1 else 0

/-- The loop of source `on_snake_body`; the argument is the chain from `cur`
on.  The loop stops when `cur` is null (empty chain) or `cur` is the tail
(the chain has one node left). -/
def bodyLoop (y x : Int) : List segment_t → Int
  | [] => 0
  | [_] => 0
  | cur :: nxt :: rest =>
    if y = cur.y ∧ x = cur.x then 1 else bodyLoop y x (nxt :: rest)

/-- Source `on_snake_body`: the loop starts at `snake->head->next`. -/
def on_snake_body (y x : Int) (snake : snake_t) : Int := bodyLoop y x snake.chain

/-- Source `in_bounds`. -/
def in_bounds (y x : Int) (arena : arena_t) : Int :=
  if y < arena.top ∨ x > arena.right ∨ y > arena.bottom ∨ x < arena.left then 0 else 1

/-- Source `can_move`. -/
def can_move (snake : snake_t) (arena : arena_t) : Int :=
  if in_bounds snake.head.y snake.head.x arena ≠ 0 ∧
      ¬ (on_snake_body snake.head.y snake.head.x snake ≠ 0) then 1 else 0

/-- First part of source `move_snake` ("Move the tail to the head"): when
head and tail are different segments, the tail node is detached, receives the
cell of the head and is linked in front of the old head. -/
def relocateTail (snake : snake_t) : snake_t :=
  if snake.chain ≠ [] then
    { snake with
      head := { y := snake.head.y, x := snake.head.x }
      chain := snake.head :: snake.chain.dropLast }
  else snake

/-- Second part of source `move_snake` ("Move the head"): the `switch` on
`snake->dir`; `NONE` has no case. -/
def moveHead (snake : snake_t) : snake_t :=
  match snake.dir with
  | dir_t.UP => { snake with head := { snake.head with y := toShort (snake.head.y - 1) } }
  | dir_t.RIGHT => { snake with head := { snake.head with x := toShort (snake.head.x + 1) } }
  | dir_t.DOWN => { snake with head := { snake.head with y := toShort (snake.head.y + 1) } }
  | dir_t.LEFT => { snake with head := { snake.head with x := toShort (snake.head.x - 1) } }
  | dir_t.NONE => snake

/-- Source `move_snake`.  (The C function returns the constant 0, which no
caller reads.) -/
def move_snake (snake : snake_t) (arena : arena_t) : snake_t :=
  let moved := moveHead (relocateTail snake)
  if can_move moved arena = 0 then die moved else moved

/-! ## Position sampler -/

/-- Source `newpos`, driven by the values the successive calls of `rand()`
return.  Each round of the `do ... while` takes two values.  The result is the
accepted cell and the values not yet used; `none` when the given values run
out before a cell is accepted, or when a modulus is zero (division by zero,
undefined in C). -/
def newpos : List Nat → snake_t → arena_t → Option (segment_t × List Nat)
  | r1 :: r2 :: rest, snake, arena =>
    if arena.bottom - arena.top = 0 ∨ arena.right - arena.left = 0 then none
    else
      let y := toShort (Int.tmod (r1 : Int) (arena.bottom - arena.top) + arena.top)
      let x := toShort (Int.tmod (r2 : Int) (arena.right - arena.left) + arena.left)
      if on_snake_body y x snake ≠ 0 ∨ (on_arena_item y x arena).isSome then
        newpos rest snake arena
      else some ({ y := y, x := x }, rest)
  | _, _, _ => none

/-! ## One iteration of the game loop -/

/-- The first part of the loop body of source `main`: `move_snake`, then the
block "Check for any items".  The state is the snake and the arena; the
`rand()` values are passed through `newpos`. -/
def tick (rs : List Nat) (snake : snake_t) (arena : arena_t) :
    Option ((snake_t × arena_t) × List Nat) :=
  let snake1 := move_snake snake arena
  match on_arena_item snake1.head.y snake1.head.x arena with
  | none => some ((snake1, arena), rs)
  | some cur =>
    match cur.type with
    | itemtype_t.ITEM_FOOD =>
      let snake2 := add_segment snake1
      match remove_item (some cur) arena with
      | none => none
      | some arena1 =>
        match newpos rs snake2 arena1 with
        | none => none
        | some (p, rest) => some ((snake2, (add_item p.y p.x itemtype_t.ITEM_FOOD arena1).2), rest)
    | itemtype_t.ITEM_WALL => some ((die snake1, arena), rs)

/-- What `getch()` returns in the block "Get input" of source `main`: a plain
character, one of the four curses arrow key codes (macros of the curses
header, distinct from every character and from each other), or any other
code (no key pending, another function key). -/
inductive key_t where
  | char (c : Char)
  | KEY_UP
  | KEY_RIGHT
  | KEY_DOWN
  | KEY_LEFT
  | other (code : Int)
deriving DecidableEq

/-- The block "Get input" of the loop body of source `main`. -/
def get_input (ch : key_t) (snake : snake_t) : snake_t :=
  match ch with
  | key_t.char 'k' | key_t.char 'w' | key_t.KEY_UP =>
    if snake.dir ≠ dir_t.DOWN then { snake with dir := dir_t.UP } else snake
  | key_t.char 'l' | key_t.KEY_RIGHT =>
    if snake.dir ≠ dir_t.LEFT then { snake with dir := dir_t.RIGHT } else snake
  | key_t.char 'j' | key_t.KEY_DOWN =>
    if snake.dir ≠ dir_t.UP then { snake with dir := dir_t.DOWN } else snake
  | key_t.char 'h' | key_t.KEY_LEFT =>
    if snake.dir ≠ dir_t.RIGHT then { snake with dir := dir_t.LEFT } else snake
  | key_t.char 'q' => die snake
  | _ => snake

/-! ## Vocabulary of the specification -/

/-- The unit step of a direction as (row delta, column delta): `UP` is one row
less, `RIGHT` one column more, `DOWN` one row more, `LEFT` one column less,
`NONE` no step. -/
def delta : dir_t → Int × Int
  | dir_t.NONE => (0, 0)
  | dir_t.UP => (-1, 0)
  | dir_t.RIGHT => (0, 1)
  | dir_t.DOWN => (1, 0)
  | dir_t.LEFT => (0, -1)

/-- Cell `c` plus the step `d`, in the arithmetic of the type `short` that
holds the coordinates. -/
def shift (c : segment_t) (d : Int × Int) : segment_t :=
  { y := toShort (c.y + d.1), x := toShort (c.x + d.2) }

/-- The direction a steering key stands for (the `case` labels of the block
"Get input"); `none` for every other key. -/
def steerDir : key_t → Option dir_t
  | key_t.char 'k' | key_t.char 'w' | key_t.KEY_UP => some dir_t.UP
  | key_t.char 'l' | key_t.KEY_RIGHT => some dir_t.RIGHT
  | key_t.char 'j' | key_t.KEY_DOWN => some dir_t.DOWN
  | key_t.char 'h' | key_t.KEY_LEFT => some dir_t.LEFT
  | _ => none

/-- Direction `k` is the exact reverse of direction `c`. -/
def isReverse : dir_t → dir_t → Bool
  | dir_t.UP, dir_t.DOWN => true
  | dir_t.DOWN, dir_t.UP => true
  | dir_t.LEFT, dir_t.RIGHT => true
  | dir_t.RIGHT, dir_t.LEFT => true
  | _, _ => false

/-- The segments strictly between head and tail. -/
def interior (snake : snake_t) : List segment_t := snake.chain.dropLast

/-- Item `it` lies on cell `(y, x)`. -/
def itemAt (y x : Int) (it : item_t) : Prop := y = it.y ∧ x = it.x

instance (y x : Int) (it : item_t) : Decidable (itemAt y x it) := by
  unfold itemAt; exact inferInstance

/-- The number of Food items of an item list. -/
def countFood (l : List item_t) : Nat :=
  (l.filter (fun it => decide (it.type = itemtype_t.ITEM_FOOD))).length

/-! ## Concrete states -/

/-- An arena with rows and columns 0 to 10 and one Food item at row 5, column 6. -/
def ex_arena : arena_t :=
  { top := 0, right := 10, bottom := 10, left := 0,
    items := [{ type := itemtype_t.ITEM_FOOD, y := 5, x := 6 }] }

/-- A snake of two segments on (5,5), (5,4), heading right and alive. -/
def ex_snake : snake_t :=
  { dir := dir_t.RIGHT, status := status_t.ALIVE, head := { y := 5, x := 5 },
    chain := [{ y := 5, x := 4 }] }

/-- What `ex_snake` is after it moved onto (5,6) and grew there. -/
def fed_snake : snake_t :=
  { dir := dir_t.RIGHT, status := status_t.ALIVE, head := { y := 5, x := 6 },
    chain := [{ y := 5, x := 5 }, { y := 5, x := 5 }] }

/-- An arena with rows and columns 0 to 10 and no item. -/
def open_arena : arena_t := { top := 0, right := 10, bottom := 10, left := 0, items := [] }

/-- A snake of five segments that went up, right, up, left and now heads down,
towards the cell (6,5) of its fourth segment. -/
def uturn_snake : snake_t :=
  { dir := dir_t.DOWN, status := status_t.ALIVE, head := { y := 5, x := 5 },
    chain := [{ y := 5, x := 6 }, { y := 6, x := 6 }, { y := 6, x := 5 }, { y := 7, x := 5 }] }

/-- A snake of three segments on (5,6), (5,5), (5,4), heading right. -/
def grown_snake : snake_t :=
  { dir := dir_t.RIGHT, status := status_t.ALIVE, head := { y := 5, x := 6 },
    chain := [{ y := 5, x := 5 }, { y := 5, x := 4 }] }

/-- A snake of six segments that came along row 5 through (5,5), turned right,
down and left, and now heads up, back to (5,5). -/
def loop_snake : snake_t :=
  { dir := dir_t.UP, status := status_t.ALIVE, head := { y := 6, x := 5 },
    chain := [{ y := 6, x := 6 }, { y := 5, x := 6 }, { y := 5, x := 5 }, { y := 5, x := 4 },
              { y := 5, x := 3 }] }

/-- An arena with rows and columns 0 to 10 and one Food item at (5,5), a cell
under the body of `loop_snake`. -/
def loop_arena : arena_t :=
  { top := 0, right := 10, bottom := 10, left := 0,
    items := [{ type := itemtype_t.ITEM_FOOD, y := 5, x := 5 }] }

/-- A Wall item at row `y`, column `x`. -/
def wall (y x : Int) : item_t := { type := itemtype_t.ITEM_WALL, y := y, x := x }

/-- An arena of 5 rows and 5 columns: the boundary walls in the order in which
the set-up loops of `main` add them, then one wall at (2,3).  Its interior is
3 by 3. -/
def walled_arena : arena_t :=
  { top := 0, right := 4, bottom := 4, left := 0,
    items := [wall 0 0, wall 0 1, wall 0 2, wall 0 3, wall 0 4,
              wall 1 0, wall 1 4, wall 2 0, wall 2 4, wall 3 0, wall 3 4,
              wall 4 0, wall 4 1, wall 4 2, wall 4 3, wall 4 4,
              wall 2 3] }

/-- A snake of one segment at the centre (2,2) of `walled_arena`, heading
right. -/
def centre_snake : snake_t :=
  { dir := dir_t.RIGHT, status := status_t.ALIVE, head := { y := 2, x := 2 }, chain := [] }

/-! ## Further vocabulary and states -/

/-- The cell one round of the loop of source `newpos` draws from the two
values `r1`, `r2` that `rand()` returns: the right-hand sides of the
assignments to `*y` and `*x`, stored into `short`s. -/
def candidate (r1 r2 : Nat) (arena : arena_t) : segment_t :=
  { y := toShort (Int.tmod (r1 : Int) (arena.bottom - arena.top) + arena.top),
    x := toShort (Int.tmod (r2 : Int) (arena.right - arena.left) + arena.left) }

/-- The Wall items of an item list, in list order. -/
def wallItems (l : List item_t) : List item_t :=
  l.filter (fun it => decide (it.type = itemtype_t.ITEM_WALL))

/-- No two items of the list lie on the same cell. -/
def distinctCells (l : List item_t) : Prop :=
  l.Pairwise (fun a b => ¬ (a.y = b.y ∧ a.x = b.x))

instance (l : List item_t) : Decidable (distinctCells l) := by
  unfold distinctCells; exact inferInstance

/-- The registry holds an item on every cell of the outer rectangle
perimeter of the arena. -/
def perimeterCovered (arena : arena_t) : Prop :=
  ∀ y x : Int, arena.top ≤ y → y ≤ arena.bottom → arena.left ≤ x → x ≤ arena.right →
    (y = arena.top ∨ y = arena.bottom ∨ x = arena.left ∨ x = arena.right) →
    ∃ it ∈ arena.items, itemAt y x it

/-- The Manhattan distance of two cells. -/
def manhattan (a b : segment_t) : Nat := (a.y - b.y).natAbs + (a.x - b.x).natAbs

/-- Every two consecutive segments of the sequence lie at Manhattan distance at
most 1. -/
def contiguous : List segment_t → Prop
  | a :: b :: rest => manhattan a b ≤ 1 ∧ contiguous (b :: rest)
  | [_] => True
  | [] => True

instance contiguousDecidable : (l : List segment_t) → Decidable (contiguous l)
  | [] => isTrue trivial
  | [_] => isTrue trivial
  | a :: b :: rest =>
    have : Decidable (contiguous (b :: rest)) := contiguousDecidable (b :: rest)
    inferInstanceAs (Decidable (manhattan a b ≤ 1 ∧ contiguous (b :: rest)))

/-! ## The game loop and its states -/

/-- Cell `c` lies strictly inside the rectangle of the arena. -/
def inside (c : segment_t) (arena : arena_t) : Prop :=
  arena.top < c.y ∧ c.y < arena.bottom ∧ arena.left < c.x ∧ c.x < arena.right

instance (c : segment_t) (arena : arena_t) : Decidable (inside c arena) := by
  unfold inside; exact inferInstance

/-- The lookup at every cell of the outer rectangle perimeter of the arena
finds a Wall item: what the loops "Arena boundary" of source `main` set up,
and what the items added later, each at a cell `newpos` returned, leave so. -/
def walled (arena : arena_t) : Prop :=
  ∀ y x : Int, arena.top ≤ y → y ≤ arena.bottom → arena.left ≤ x → x ≤ arena.right →
    (y = arena.top ∨ y = arena.bottom ∨ x = arena.left ∨ x = arena.right) →
    ∃ w, on_arena_item y x arena = some w ∧ w.type = itemtype_t.ITEM_WALL

/-- The state in which source `main` enters its game loop: the snake has the
direction `NONE`, the status `ALIVE` and one segment ("Create a snake"), whose
cell is the one the call `newpos(&snake->head->y, &snake->head->x, snake,
arena)` returned; the arena has `short` bounds with at least two rows and two
columns, and walls all around ("Create walls"). -/
def initial_state (snake : snake_t) (arena : arena_t) : Prop :=
  snake.dir = dir_t.NONE ∧ snake.status = status_t.ALIVE ∧ snake.chain = []
    ∧ isShort arena.top ∧ isShort arena.bottom ∧ isShort arena.left ∧ isShort arena.right
    ∧ arena.top < arena.bottom ∧ arena.left < arena.right
    ∧ walled arena
    ∧ ∃ rs rest, newpos rs snake arena = some (snake.head, rest)

/-- The states of snake and arena at the end of the iterations of the game
loop `do ... while (snake->status != DEAD)` of source `main`, started in
`snake0`, `arena0`: one iteration is the tick, with the values `rs` of
`rand()`, followed by the input step, with the key `ch`; a further iteration
is run only when the status is not `DEAD`. -/
inductive Reachable (snake0 : snake_t) (arena0 : arena_t) : snake_t → arena_t → Prop where
  | start : Reachable snake0 arena0 snake0 arena0
  | iterate {snake snake2 : snake_t} {arena arena2 : arena_t} (rs rest : List Nat)
      (ch : key_t) :
      Reachable snake0 arena0 snake arena → snake.status ≠ status_t.DEAD →
      tick rs snake arena = some ((snake2, arena2), rest) →
      Reachable snake0 arena0 (get_input ch snake2) arena2

/-- What holds of snake and arena at the end of every iteration of the game
loop: the arena has `short` bounds and walls all around, the segments of the
snake are contiguous, and a snake that is not dead has its head strictly
inside the walls. -/
def loop_invariant (snake : snake_t) (arena : arena_t) : Prop :=
  isShort arena.top ∧ isShort arena.bottom ∧ isShort arena.left ∧ isShort arena.right
    ∧ walled arena
    ∧ contiguous (segments snake)
    ∧ (snake.status ≠ status_t.DEAD → inside snake.head arena)

/-- The snake with which the game starts at the centre (2,2) of
`walled_arena`. -/
def start_snake : snake_t :=
  { dir := dir_t.NONE, status := status_t.ALIVE, head := { y := 2, x := 2 }, chain := [] }

/-! ## Lemmas on the data model -/

theorem toShort_of_isShort {n : Int} (h : isShort n) : toShort n = n := by
  unfold isShort at h
  unfold toShort
  omega

theorem isShort_toShort (n : Int) : isShort (toShort n) := by
  unfold isShort toShort
  omega

theorem lastSeg_eq_getLast (s : segment_t) (l : List segment_t) :
    lastSeg s l = (s :: l).getLast (List.cons_ne_nil s l) := by
  induction l generalizing s with
  | nil => rfl
  | cons c rest ih =>
    rw [lastSeg, ih c, List.getLast_cons (List.cons_ne_nil c rest)]

theorem tail_eq_getLast (snake : snake_t) :
    tail snake = (segments snake).getLast (List.cons_ne_nil _ _) :=
  lastSeg_eq_getLast snake.head snake.chain

theorem segments_relocateTail (snake : snake_t) :
    segments (relocateTail snake) = snake.head :: (segments snake).dropLast := by
  unfold relocateTail segments
  by_cases h : snake.chain = []
  · simp [h]
  · obtain ⟨c, rest, hc⟩ := List.exists_cons_of_ne_nil h
    simp [hc]

theorem relocateTail_head (snake : snake_t) : (relocateTail snake).head = snake.head := by
  unfold relocateTail
  split <;> rfl

theorem relocateTail_dir (snake : snake_t) : (relocateTail snake).dir = snake.dir := by
  unfold relocateTail
  split <;> rfl

theorem relocateTail_status (snake : snake_t) :
    (relocateTail snake).status = snake.status := by
  unfold relocateTail
  split <;> rfl

theorem moveHead_chain (snake : snake_t) : (moveHead snake).chain = snake.chain := by
  unfold moveHead
  split <;> rfl

theorem moveHead_dir (snake : snake_t) : (moveHead snake).dir = snake.dir := by
  unfold moveHead
  split <;> rfl

theorem moveHead_status (snake : snake_t) : (moveHead snake).status = snake.status := by
  unfold moveHead
  split <;> rfl

theorem moveHead_head (snake : snake_t)
    (hy : isShort snake.head.y) (hx : isShort snake.head.x) :
    (moveHead snake).head = shift snake.head (delta snake.dir) := by
  have ey := toShort_of_isShort hy
  have ex := toShort_of_isShort hx
  unfold moveHead shift
  cases hd : snake.dir <;> simp [delta, ey, ex] <;> rfl

theorem move_snake_head (snake : snake_t) (arena : arena_t) :
    (move_snake snake arena).head = (moveHead (relocateTail snake)).head := by
  unfold move_snake
  simp only
  split <;> rfl

theorem move_snake_chain (snake : snake_t) (arena : arena_t) :
    (move_snake snake arena).chain = (moveHead (relocateTail snake)).chain := by
  unfold move_snake
  simp only
  split <;> rfl

theorem move_snake_dir (snake : snake_t) (arena : arena_t) :
    (move_snake snake arena).dir = snake.dir := by
  unfold move_snake
  simp only
  split <;> simp [die, moveHead_dir, relocateTail_dir]

theorem segments_move_snake (snake : snake_t) (arena : arena_t)
    (hy : isShort snake.head.y) (hx : isShort snake.head.x) :
    segments (move_snake snake arena)
      = shift snake.head (delta snake.dir) :: (segments snake).dropLast := by
  have h1 := segments_relocateTail snake
  unfold segments at h1 ⊢
  rw [move_snake_head, move_snake_chain, moveHead_chain]
  rw [moveHead_head _ (by rw [relocateTail_head]; exact hy)
    (by rw [relocateTail_head]; exact hx), relocateTail_head, relocateTail_dir]
  injection h1 with _ h2
  rw [h2]

theorem segments_length_move_snake (snake : snake_t) (arena : arena_t) :
    (segments (move_snake snake arena)).length = (segments snake).length := by
  have h := congrArg List.length (segments_relocateTail snake)
  simp only [segments, List.length_cons, List.length_dropLast] at h ⊢
  rw [move_snake_chain, moveHead_chain]
  omega

theorem segments_eq_dropLast_tail (snake : snake_t) :
    segments snake = (segments snake).dropLast ++ [tail snake] := by
  rw [tail_eq_getLast]
  exact (List.dropLast_append_getLast (List.cons_ne_nil snake.head snake.chain)).symm

/-! ## Lemmas on the body test and the bounds test -/

theorem bodyLoop_zero_or_one (y x : Int) (l : List segment_t) :
    bodyLoop y x l = 0 ∨ bodyLoop y x l = 1 := by
  induction l with
  | nil => left; rfl
  | cons c rest ih =>
    cases rest with
    | nil => left; rfl
    | cons n r =>
      rw [bodyLoop]
      split
      · right; rfl
      · exact ih

theorem bodyLoop_eq_one_iff (y x : Int) (l : List segment_t) :
    bodyLoop y x l = 1 ↔ ({ y := y, x := x } : segment_t) ∈ l.dropLast := by
  induction l with
  | nil => simp [bodyLoop]
  | cons c rest ih =>
    cases rest with
    | nil => simp [bodyLoop]
    | cons n r =>
      rw [bodyLoop, List.dropLast_cons₂, List.mem_cons]
      by_cases hc : y = c.y ∧ x = c.x
      · have : ({ y := y, x := x } : segment_t) = c := by
          cases c; simp at hc ⊢; exact hc
        simp [hc, this]
      · have : ({ y := y, x := x } : segment_t) ≠ c := by
          intro he; apply hc; rw [← he]; exact ⟨rfl, rfl⟩
        simp [hc, this, ih]

theorem on_snake_body_eq_one_iff (y x : Int) (snake : snake_t) :
    on_snake_body y x snake = 1 ↔ ({ y := y, x := x } : segment_t) ∈ interior snake :=
  bodyLoop_eq_one_iff y x snake.chain

theorem on_snake_body_ne_zero_iff (y x : Int) (snake : snake_t) :
    on_snake_body y x snake ≠ 0 ↔ ({ y := y, x := x } : segment_t) ∈ interior snake := by
  rw [← on_snake_body_eq_one_iff]
  rcases bodyLoop_zero_or_one y x snake.chain with h | h <;> simp [on_snake_body, h]

theorem mem_dropLast_iff_index (c : segment_t) (l : List segment_t) :
    c ∈ l.dropLast ↔ ∃ j, j + 1 < l.length ∧ l[j]? = some c := by
  induction l with
  | nil => simp
  | cons a rest ih =>
    cases rest with
    | nil => simp
    | cons n r =>
      rw [List.dropLast_cons₂, List.mem_cons, ih]
      constructor
      · rintro (h | ⟨j, hj, hg⟩)
        · exact ⟨0, by simp, by simp [h]⟩
        · exact ⟨j + 1, by simpa using hj, by simpa using hg⟩
      · rintro ⟨j, hj, hg⟩
        cases j with
        | zero => left; simpa using hg.symm
        | succ j => right; exact ⟨j, by simpa using hj, by simpa using hg⟩

theorem can_move_eq_zero_iff (snake : snake_t) (arena : arena_t) :
    can_move snake arena = 0 ↔
      (snake.head.y < arena.top ∨ snake.head.x > arena.right
          ∨ snake.head.y > arena.bottom ∨ snake.head.x < arena.left)
        ∨ snake.head ∈ interior snake := by
  have hb := on_snake_body_ne_zero_iff snake.head.y snake.head.x snake
  unfold can_move in_bounds
  by_cases h1 : snake.head.y < arena.top ∨ snake.head.x > arena.right
      ∨ snake.head.y > arena.bottom ∨ snake.head.x < arena.left
  · simp [h1]
  · by_cases h2 : snake.head ∈ interior snake
    · have := hb.mpr h2
      simp [h1, h2, this]
    · have : ¬ on_snake_body snake.head.y snake.head.x snake ≠ 0 := fun h => h2 (hb.mp h)
      simp [h1, h2, this]

theorem move_snake_status_of_can_move (snake : snake_t) (arena : arena_t) :
    (move_snake snake arena).status
      = if can_move (moveHead (relocateTail snake)) arena = 0 then status_t.DEAD
        else snake.status := by
  unfold move_snake
  simp only
  split
  · rfl
  · rw [moveHead_status, relocateTail_status]

theorem move_snake_interior (snake : snake_t) (arena : arena_t) :
    interior (move_snake snake arena) = interior (moveHead (relocateTail snake)) := by
  unfold interior
  rw [move_snake_chain]

/-! ## Lemmas on the item registry and the sampler -/

theorem findItem_eq_none_iff (y x : Int) (l : List item_t) :
    findItem y x l = none ↔ ∀ it ∈ l, ¬ itemAt y x it := by
  induction l with
  | nil => simp [findItem]
  | cons c rest ih =>
    rw [findItem]
    by_cases hc : y = c.y ∧ x = c.x
    · simp [hc, itemAt]
    · rw [if_neg hc, ih]
      constructor
      · intro h it hit
        rcases List.mem_cons.mp hit with he | hm
        · rw [he]; exact hc
        · exact h it hm
      · intro h it hit
        exact h it (List.mem_cons_of_mem c hit)

theorem findItem_eq_some (y x : Int) (l : List item_t) (cur : item_t)
    (h : findItem y x l = some cur) :
    itemAt y x cur ∧ ∃ pre post, l = pre ++ cur :: post ∧ ∀ it ∈ pre, ¬ itemAt y x it := by
  induction l with
  | nil => simp [findItem] at h
  | cons c rest ih =>
    rw [findItem] at h
    by_cases hc : y = c.y ∧ x = c.x
    · rw [if_pos hc] at h
      injection h with h
      subst h
      exact ⟨hc, [], rest, rfl, by simp⟩
    · rw [if_neg hc] at h
      obtain ⟨hat, pre, post, hl, hpre⟩ := ih h
      refine ⟨hat, c :: pre, post, by simp [hl], ?_⟩
      intro it hit
      rcases List.mem_cons.mp hit with he | hm
      · rw [he]; exact hc
      · exact hpre it hm

theorem unlink_first (cur : item_t) (pre post : List item_t)
    (hpre : ∀ it ∈ pre, ¬ itemAt cur.y cur.x it) :
    unlink cur (pre ++ cur :: post) = some (pre ++ post) := by
  induction pre with
  | nil => simp [unlink]
  | cons c rest ih =>
    have hc : ¬ (cur.y = c.y ∧ cur.x = c.x) := hpre c (List.mem_cons_self c rest)
    have hrest := ih (fun it hit => hpre it (List.mem_cons_of_mem c hit))
    simp [unlink, hc, hrest]

theorem countFood_append (l m : List item_t) :
    countFood (l ++ m) = countFood l + countFood m := by
  simp [countFood]

theorem newpos_accepts : (rs : List Nat) → (snake : snake_t) → (arena : arena_t) →
    (p : segment_t) → (rest : List Nat) → newpos rs snake arena = some (p, rest) →
    on_snake_body p.y p.x snake = 0 ∧ on_arena_item p.y p.x arena = none
  | [], _, _, _, _, h => by simp [newpos] at h
  | [_], _, _, _, _, h => by simp [newpos] at h
  | r1 :: r2 :: more, snake, arena, p, rest, h => by
    rw [newpos] at h
    split at h
    · exact absurd h (by simp)
    · simp only at h
      split at h
      · exact newpos_accepts more snake arena p rest h
      · rename_i hrej
        injection h with h
        injection h with hp _
        subst hp
        simp only [not_or, ne_eq, not_not] at hrej
        refine ⟨hrej.1, ?_⟩
        have := hrej.2
        simpa using this

theorem newpos_free (rs : List Nat) (snake : snake_t) (arena : arena_t)
    (p : segment_t) (rest : List Nat) (h : newpos rs snake arena = some (p, rest)) :
    (∀ it ∈ arena.items, ¬ itemAt p.y p.x it) ∧ p ∉ interior snake := by
  obtain ⟨hb, hi⟩ := newpos_accepts rs snake arena p rest h
  refine ⟨(findItem_eq_none_iff p.y p.x arena.items).mp hi, ?_⟩
  intro hmem
  exact (on_snake_body_ne_zero_iff p.y p.x snake).mpr hmem hb

/-! ## Lemmas on the tick -/

theorem itemAt_pre_of_found {y x : Int} {cur : item_t} {pre : List item_t}
    (hat : itemAt y x cur) (hpre : ∀ it ∈ pre, ¬ itemAt y x it) :
    ∀ it ∈ pre, ¬ itemAt cur.y cur.x it := by
  intro it hit
  have := hpre it hit
  unfold itemAt at hat this ⊢
  rw [← hat.1, ← hat.2]
  exact this

theorem tick_food (rs : List Nat) (snake : snake_t) (arena : arena_t) (cur : item_t)
    (pre post : List item_t)
    (hfind : on_arena_item (move_snake snake arena).head.y (move_snake snake arena).head.x arena
      = some cur)
    (hfood : cur.type = itemtype_t.ITEM_FOOD)
    (hsplit : arena.items = pre ++ cur :: post)
    (hpre : ∀ it ∈ pre, ¬ itemAt cur.y cur.x it) :
    tick rs snake arena
      = match newpos rs (add_segment (move_snake snake arena))
            { arena with items := pre ++ post } with
        | none => none
        | some (p, rest) =>
          some ((add_segment (move_snake snake arena),
            { arena with
              items := pre ++ post ++ [{ type := itemtype_t.ITEM_FOOD, y := p.y, x := p.x }] }),
            rest) := by
  unfold tick
  simp only [hfind, hfood, remove_item, hsplit, unlink_first cur pre post hpre, add_item]

theorem tick_status_of_dead (rs : List Nat) (snake : snake_t) (arena : arena_t)
    (hdead : (move_snake snake arena).status = status_t.DEAD)
    (snake2 : snake_t) (arena2 : arena_t) (rest : List Nat)
    (htick : tick rs snake arena = some ((snake2, arena2), rest)) :
    snake2.status = status_t.DEAD := by
  unfold tick at htick
  simp only at htick
  split at htick
  · simp only [Option.some.injEq, Prod.mk.injEq] at htick
    rw [← htick.1.1]; exact hdead
  · split at htick
    · split at htick
      · exact absurd htick (by simp)
      · split at htick
        · exact absurd htick (by simp)
        · simp only [Option.some.injEq, Prod.mk.injEq] at htick
          rw [← htick.1.1]; exact hdead
    · simp only [Option.some.injEq, Prod.mk.injEq] at htick
      rw [← htick.1.1]; rfl

/-! ## The snake body: `move_snake`, the input step, `add_segment` -/

/-- C1: for every snake (it has at least its head segment; its head
coordinates are `short`s) and every direction, after `move_snake` the segment
sequence from head to tail is the old head cell plus the step of the direction,
followed by the old sequence without its last segment.  So the number of
segments is unchanged; with more than one segment the old head is the second
segment (also when the direction is `NONE`, where the old head cell then
stands twice at the front); with one segment the single cell is shifted by the
step.  The sum is the one of the type `short` that holds the coordinates; it is
the integer sum whenever that fits into a `short`. -/
theorem move_snake_advances (snake : snake_t) (arena : arena_t)
    (hy : isShort snake.head.y) (hx : isShort snake.head.x) :
    segments (move_snake snake arena)
        = shift snake.head (delta snake.dir) :: (segments snake).dropLast
      ∧ (segments (move_snake snake arena)).length = (segments snake).length
      ∧ (snake.chain ≠ [] → (segments (move_snake snake arena))[1]? = some snake.head)
      ∧ (snake.chain = [] →
          segments (move_snake snake arena) = [shift snake.head (delta snake.dir)])
      ∧ (snake.dir = dir_t.NONE → shift snake.head (delta snake.dir) = snake.head)
      ∧ (isShort (snake.head.y + (delta snake.dir).1) →
          isShort (snake.head.x + (delta snake.dir).2) →
          shift snake.head (delta snake.dir)
            = { y := snake.head.y + (delta snake.dir).1,
                x := snake.head.x + (delta snake.dir).2 }) := by
  have hseg := segments_move_snake snake arena hy hx
  refine ⟨hseg, ?_, ?_, ?_, ?_, ?_⟩
  · rw [hseg]
    simp [segments]
  · intro hne
    rw [hseg]
    obtain ⟨c, rest, hc⟩ := List.exists_cons_of_ne_nil hne
    simp [segments, hc]
  · intro he
    rw [hseg]
    simp [segments, he]
  · intro hd
    rw [hd]
    simp [shift, delta, toShort_of_isShort hy, toShort_of_isShort hx]
  · intro h1 h2
    simp [shift, toShort_of_isShort h1, toShort_of_isShort h2]

/-- C1 at the snake on (5,5), (5,4) heading right: the segments become
(5,6), (5,5). -/
theorem move_snake_advances_witness :
    segments (move_snake ex_snake ex_arena) = [{ y := 5, x := 6 }, { y := 5, x := 5 }] :=
  (move_snake_advances ex_snake ex_arena (by decide) (by decide)).1

/-- C2: for every current direction and every steering key, standing for the
direction `k`, the input step leaves the direction as it is when `k` is the
exact reverse of it, and sets it to `k` otherwise (also from `NONE`); the
segments and the status are unchanged. -/
theorem get_input_steer (snake : snake_t) (ch : key_t) (k : dir_t)
    (h : steerDir ch = some k) :
    (get_input ch snake).dir = (if isReverse k snake.dir then snake.dir else k)
      ∧ segments (get_input ch snake) = segments snake
      ∧ (get_input ch snake).status = snake.status := by
  unfold steerDir at h
  unfold get_input segments
  split at h <;> simp at h <;> subst h <;> cases hd : snake.dir <;> simp [isReverse, hd]

/-- C2 at the current direction `RIGHT` and the left arrow key: the direction
stays `RIGHT`. -/
theorem get_input_steer_witness :
    (get_input key_t.KEY_LEFT ex_snake).dir = dir_t.RIGHT :=
  (get_input_steer ex_snake key_t.KEY_LEFT dir_t.LEFT rfl).1

/-- C3: for every snake, `add_segment` yields one segment more; the old
segments are kept, in their order, as the first ones, the new last segment has
the cell of the old tail, and direction and status are unchanged. -/
theorem add_segment_grows (snake : snake_t) :
    segments (add_segment snake) = segments snake ++ [tail snake]
      ∧ (segments (add_segment snake)).length = (segments snake).length + 1
      ∧ (segments (add_segment snake)).take (segments snake).length = segments snake
      ∧ tail (add_segment snake) = tail snake
      ∧ tail snake = (segments snake).getLast (List.cons_ne_nil _ _)
      ∧ (add_segment snake).dir = snake.dir
      ∧ (add_segment snake).status = snake.status := by
  have h1 : segments (add_segment snake) = segments snake ++ [tail snake] := by
    simp [segments, add_segment]
  refine ⟨h1, ?_, ?_, ?_, tail_eq_getLast snake, rfl, rfl⟩
  · rw [h1]; simp
  · rw [h1]; simp
  · rw [tail_eq_getLast (add_segment snake)]
    simp [h1]

/-! ## The tick -/

/-- C4: when the tick moves the head onto a cell where the lookup finds a Food
item `cur`, then `cur` is the first item of the registry on that cell, and for
every cell `p` the sampler returns the tick ends with: one segment more than
before, the advanced segments followed by one more segment on the tail cell
(so the last two segments lie on the tail cell the advance produced), the
registry without `cur` and with one new Food item at `p` appended, and as many
Food items as before. -/
theorem tick_consumes_food (rs : List Nat) (snake : snake_t) (arena : arena_t) (cur : item_t)
    (hfind : on_arena_item (move_snake snake arena).head.y (move_snake snake arena).head.x arena
      = some cur)
    (hfood : cur.type = itemtype_t.ITEM_FOOD) :
    ∃ pre post, arena.items = pre ++ cur :: post
      ∧ (∀ it ∈ pre,
          ¬ itemAt (move_snake snake arena).head.y (move_snake snake arena).head.x it)
      ∧ ∀ p rest,
          newpos rs (add_segment (move_snake snake arena)) { arena with items := pre ++ post }
            = some (p, rest) →
          ∃ snake2 arena2, tick rs snake arena = some ((snake2, arena2), rest)
            ∧ (segments snake2).length = (segments snake).length + 1
            ∧ segments snake2
                = segments (move_snake snake arena) ++ [tail (move_snake snake arena)]
            ∧ segments snake2
                = (segments (move_snake snake arena)).dropLast
                  ++ [tail (move_snake snake arena), tail (move_snake snake arena)]
            ∧ arena2.items
                = pre ++ post ++ [{ type := itemtype_t.ITEM_FOOD, y := p.y, x := p.x }]
            ∧ countFood arena2.items = countFood arena.items := by
  obtain ⟨hat, pre, post, hsplit, hpre⟩ := findItem_eq_some _ _ _ _ hfind
  refine ⟨pre, post, hsplit, hpre, ?_⟩
  intro p rest hnew
  have ht := tick_food rs snake arena cur pre post hfind hfood hsplit
    (itemAt_pre_of_found hat hpre)
  rw [hnew] at ht
  have hseg : segments (add_segment (move_snake snake arena))
      = segments (move_snake snake arena) ++ [tail (move_snake snake arena)] := by
    simp [segments, add_segment]
  refine ⟨_, _, ht, ?_, hseg, ?_, rfl, ?_⟩
  · rw [hseg, List.length_append, segments_length_move_snake]
    rfl
  · rw [hseg]
    conv_lhs => rw [segments_eq_dropLast_tail (move_snake snake arena)]
    simp
  · simp only [hsplit, countFood_append]
    simp [countFood, hfood]
    omega

/-- C4 at the snake on (5,5), (5,4) heading right with Food at (5,6): the
advance gives (5,6), (5,5), the tick gives (5,6), (5,5), (5,5) and, the sampler
returning (3,3), a registry that holds one Food item, at (3,3). -/
theorem tick_consumes_food_witness :
    segments (move_snake ex_snake ex_arena) = [{ y := 5, x := 6 }, { y := 5, x := 5 }]
      ∧ ∃ snake2 arena2, tick [3, 3] ex_snake ex_arena = some ((snake2, arena2), [])
        ∧ segments snake2 = [{ y := 5, x := 6 }, { y := 5, x := 5 }, { y := 5, x := 5 }]
        ∧ arena2.items = [{ type := itemtype_t.ITEM_FOOD, y := 3, x := 3 }] := by
  refine ⟨by decide, ?_⟩
  obtain ⟨pre, post, hsplit, _, H⟩ :=
    tick_consumes_food [3, 3] ex_snake ex_arena { type := itemtype_t.ITEM_FOOD, y := 5, x := 6 }
      (by decide) rfl
  have hpp : pre = [] ∧ post = [] := by
    cases pre with
    | nil => simpa [ex_arena] using hsplit
    | cons c r => simp [ex_arena] at hsplit
  obtain ⟨hp1, hp2⟩ := hpp
  subst hp1 hp2
  obtain ⟨s2, a2, ht, _, hs, _, ha, _⟩ := H { y := 3, x := 3 } [] (by decide)
  exact ⟨s2, a2, ht, by rw [hs]; decide, by rw [ha]; rfl⟩

/-- C5 as amended: when the tick consumes a Food item `cur` and the sampler
terminates, the new Food item is appended at a cell that differs from the
cell of every item left in the registry and from the cell of every segment
strictly between head and tail of the grown snake.  (The cell of `cur`, on
which the head now lies, is not excluded.) -/
theorem tick_new_food_cell (rs : List Nat) (snake : snake_t) (arena : arena_t) (cur : item_t)
    (snake2 : snake_t) (arena2 : arena_t) (rest : List Nat)
    (hfind : on_arena_item (move_snake snake arena).head.y (move_snake snake arena).head.x arena
      = some cur)
    (hfood : cur.type = itemtype_t.ITEM_FOOD)
    (htick : tick rs snake arena = some ((snake2, arena2), rest)) :
    ∃ pre post p, arena.items = pre ++ cur :: post
      ∧ (∀ it ∈ pre,
          ¬ itemAt (move_snake snake arena).head.y (move_snake snake arena).head.x it)
      ∧ arena2.items = pre ++ post ++ [{ type := itemtype_t.ITEM_FOOD, y := p.y, x := p.x }]
      ∧ (∀ it ∈ pre ++ post, ¬ itemAt p.y p.x it)
      ∧ p ∉ interior snake2 := by
  obtain ⟨hat, pre, post, hsplit, hpre⟩ := findItem_eq_some _ _ _ _ hfind
  have ht := tick_food rs snake arena cur pre post hfind hfood hsplit
    (itemAt_pre_of_found hat hpre)
  rw [htick] at ht
  cases hnew : newpos rs (add_segment (move_snake snake arena))
      { arena with items := pre ++ post } with
  | none => rw [hnew] at ht; exact absurd ht (by simp)
  | some r =>
    obtain ⟨p, rest2⟩ := r
    rw [hnew] at ht
    simp only [Option.some.injEq, Prod.mk.injEq] at ht
    obtain ⟨⟨hs, ha⟩, _⟩ := ht
    obtain ⟨hitems, hint⟩ := newpos_free _ _ _ _ _ hnew
    refine ⟨pre, post, p, hsplit, hpre, by rw [ha], hitems, ?_⟩
    rw [hs]
    exact hint

/-- C5 as amended, at the snake on (5,5), (5,4) heading right with Food at
(5,6) and the sampler returning (3,3). -/
theorem tick_new_food_cell_witness :
    ∃ pre post p,
      ex_arena.items = pre ++ { type := itemtype_t.ITEM_FOOD, y := 5, x := 6 } :: post
      ∧ (∀ it ∈ pre,
          ¬ itemAt (move_snake ex_snake ex_arena).head.y (move_snake ex_snake ex_arena).head.x it)
      ∧ [({ type := itemtype_t.ITEM_FOOD, y := 3, x := 3 } : item_t)]
          = pre ++ post ++ [{ type := itemtype_t.ITEM_FOOD, y := p.y, x := p.x }]
      ∧ (∀ it ∈ pre ++ post, ¬ itemAt p.y p.x it)
      ∧ p ∉ interior fed_snake :=
  tick_new_food_cell [3, 3] ex_snake ex_arena { type := itemtype_t.ITEM_FOOD, y := 5, x := 6 }
    fed_snake { ex_arena with items := [{ type := itemtype_t.ITEM_FOOD, y := 3, x := 3 }] } []
    (by decide) rfl (by decide)

/-- C5 as stated fails: the snake on (5,5), (5,4) heading right eats the Food
item at (5,6); with `rand()` returning 5 and 6 the sampler terminates with
(5,6), and the new Food item lies on the cell of the one just consumed. -/
theorem tick_new_food_on_consumed_cell :
    on_arena_item (move_snake ex_snake ex_arena).head.y (move_snake ex_snake ex_arena).head.x
        ex_arena = some { type := itemtype_t.ITEM_FOOD, y := 5, x := 6 }
      ∧ tick [5, 6] ex_snake ex_arena
        = some ((fed_snake,
                 { ex_arena with items := [{ type := itemtype_t.ITEM_FOOD, y := 5, x := 6 }] }),
                []) := by
  decide

/-- C6: when, after the advance, the lookup at the new head cell finds a Wall
item, the tick ends with status `DEAD`, the head on the cell of that wall, the
segments exactly as the advance produced them, and the arena with its item
registry unchanged (no value of `rand()` is used). -/
theorem tick_hits_wall (rs : List Nat) (snake : snake_t) (arena : arena_t) (cur : item_t)
    (hfind : on_arena_item (move_snake snake arena).head.y (move_snake snake arena).head.x arena
      = some cur)
    (hwall : cur.type = itemtype_t.ITEM_WALL) :
    ∃ snake2, tick rs snake arena = some ((snake2, arena), rs)
      ∧ snake2.status = status_t.DEAD
      ∧ snake2.head = { y := cur.y, x := cur.x }
      ∧ segments snake2 = segments (move_snake snake arena) := by
  obtain ⟨hat, _⟩ := findItem_eq_some _ _ _ _ hfind
  refine ⟨die (move_snake snake arena), ?_, rfl, ?_, rfl⟩
  · unfold tick
    simp only [hfind, hwall]
  · unfold itemAt at hat
    show (move_snake snake arena).head = _
    rw [← hat.1, ← hat.2]

/-- C6 in the arena with a 3 by 3 interior: the snake of one segment at the
centre (2,2), heading right, runs into the wall at (2,3). -/
theorem tick_hits_wall_witness :
    ∃ snake2, tick [] centre_snake walled_arena = some ((snake2, walled_arena), [])
      ∧ snake2.status = status_t.DEAD
      ∧ snake2.head = { y := 2, x := 3 }
      ∧ segments snake2 = segments (move_snake centre_snake walled_arena) :=
  tick_hits_wall [] centre_snake walled_arena (wall 2 3) (by decide) rfl

/-- C7 as amended: when the advance itself marks the snake `DEAD`, the status
is `DEAD` after the tick, and unless the lookup at the new head cell finds a
Food item the tick performs no further mutation: it ends with the advanced
snake and the arena as it was.  (The registry is consulted whatever the
status.) -/
theorem tick_after_fatal_advance (rs : List Nat) (snake : snake_t) (arena : arena_t)
    (hdead : (move_snake snake arena).status = status_t.DEAD) :
    (∀ snake2 arena2 rest, tick rs snake arena = some ((snake2, arena2), rest) →
        snake2.status = status_t.DEAD)
      ∧ ((∀ cur, on_arena_item (move_snake snake arena).head.y (move_snake snake arena).head.x
              arena = some cur → cur.type ≠ itemtype_t.ITEM_FOOD) →
          tick rs snake arena = some ((move_snake snake arena, arena), rs)) := by
  refine ⟨fun s2 a2 rest h => tick_status_of_dead rs snake arena hdead s2 a2 rest h, ?_⟩
  intro hno
  unfold tick
  simp only
  cases hfind : on_arena_item (move_snake snake arena).head.y
      (move_snake snake arena).head.x arena with
  | none => rfl
  | some cur =>
    have hne := hno cur hfind
    have hty : cur.type = itemtype_t.ITEM_WALL := by
      cases h : cur.type with
      | ITEM_FOOD => exact absurd h hne
      | ITEM_WALL => rfl
    have hd : die (move_snake snake arena) = move_snake snake arena := by
      unfold die
      rw [← hdead]
    simp only [hty, hd]

/-- C7 as amended, at a snake that runs into its own second segment in an
arena without items. -/
theorem tick_after_fatal_advance_witness :
    tick [] { uturn_snake with dir := dir_t.RIGHT } open_arena
      = some ((move_snake { uturn_snake with dir := dir_t.RIGHT } open_arena, open_arena), []) :=
  (tick_after_fatal_advance [] { uturn_snake with dir := dir_t.RIGHT } open_arena
    (by decide)).2 (by decide)

/-- C7 as stated fails: the snake of six segments runs into its own body on
(5,5), where a Food item lies; the advance marks it `DEAD`, and the tick still
finds the Food item, grows the snake to seven segments, deletes the item and
appends a new Food item at the sampled cell (2,2). -/
theorem tick_dead_snake_still_eats :
    (move_snake loop_snake loop_arena).status = status_t.DEAD
      ∧ on_arena_item (move_snake loop_snake loop_arena).head.y
          (move_snake loop_snake loop_arena).head.x loop_arena
        = some { type := itemtype_t.ITEM_FOOD, y := 5, x := 5 }
      ∧ tick [2, 2] loop_snake loop_arena
        = some (({ dir := dir_t.UP, status := status_t.DEAD, head := { y := 5, x := 5 },
                   chain := [{ y := 6, x := 5 }, { y := 6, x := 6 }, { y := 5, x := 6 },
                             { y := 5, x := 5 }, { y := 5, x := 4 }, { y := 5, x := 4 }] },
                 { loop_arena with items := [{ type := itemtype_t.ITEM_FOOD, y := 2, x := 2 }] }),
                []) := by
  decide

/-! ## The sampler and the collision tests -/

/-- C8 as amended: for every arena, item registry and snake, and every
sequence of `rand()` values on which the loop of `newpos` terminates, the cell
`newpos` returns is not the cell of any item of the registry and not the cell
of any segment strictly between head and tail.  (The head cell and the tail
cell are not excluded.) -/
theorem newpos_avoids_items_and_interior (rs : List Nat) (snake : snake_t) (arena : arena_t)
    (p : segment_t) (rest : List Nat) (h : newpos rs snake arena = some (p, rest)) :
    (∀ it ∈ arena.items, ¬ itemAt p.y p.x it) ∧ p ∉ interior snake :=
  newpos_free rs snake arena p rest h

/-- C8 as amended, at the snake on (5,6), (5,5), (5,4) with Food at (5,6): the
draws (5,6), on an item, and (5,5), on the body, are rejected and (5,3) is
returned. -/
theorem newpos_avoids_items_and_interior_witness :
    (∀ it ∈ ex_arena.items, ¬ itemAt 5 3 it)
      ∧ ({ y := 5, x := 3 } : segment_t) ∉ interior grown_snake :=
  newpos_avoids_items_and_interior [5, 6, 5, 5, 5, 3] grown_snake ex_arena { y := 5, x := 3 } []
    (by decide)

/-- C8 as stated fails: for the snake on (5,6), (5,5), (5,4) in an arena
without items, `newpos` returns the head cell when `rand()` gives 5 and 6, and
the tail cell when it gives 5 and 4. -/
theorem newpos_returns_head_and_tail_cells :
    newpos [5, 6] grown_snake open_arena = some (grown_snake.head, [])
      ∧ newpos [5, 4] grown_snake open_arena = some (tail grown_snake, [])
      ∧ grown_snake.head ∈ segments grown_snake
      ∧ tail grown_snake ∈ segments grown_snake := by
  decide

/-- C9 as amended: for every alive snake and every arena, after `move_snake`
the snake is `DEAD` if the new head cell lies outside the inclusive rectangle
`top <= row <= bottom`, `left <= column <= right`, or if it equals the cell of
a segment of the moved snake strictly between head and tail. -/
theorem move_snake_dies (snake : snake_t) (arena : arena_t)
    (_halive : snake.status = status_t.ALIVE)
    (h : ((move_snake snake arena).head.y < arena.top
          ∨ (move_snake snake arena).head.x > arena.right
          ∨ (move_snake snake arena).head.y > arena.bottom
          ∨ (move_snake snake arena).head.x < arena.left)
        ∨ (move_snake snake arena).head ∈ interior (move_snake snake arena)) :
    (move_snake snake arena).status = status_t.DEAD := by
  rw [move_snake_interior, move_snake_head] at h
  rw [move_snake_status_of_can_move, if_pos ((can_move_eq_zero_iff _ arena).mpr h)]

/-- C9 as amended, at a snake whose head steps from (0,5) out of the arena. -/
theorem move_snake_dies_witness :
    (move_snake { ex_snake with dir := dir_t.UP, head := { y := 0, x := 5 },
                                chain := [{ y := 1, x := 5 }] } open_arena).status
      = status_t.DEAD :=
  move_snake_dies { ex_snake with dir := dir_t.UP, head := { y := 0, x := 5 },
                                  chain := [{ y := 1, x := 5 }] } open_arena rfl (by decide)

/-- C9 as stated fails: the alive snake of five segments steps down onto
(6,5), inside the arena; the moved snake has its tail on (6,5) as well, and it
is still alive. -/
theorem move_snake_onto_tail_stays_alive :
    uturn_snake.status = status_t.ALIVE
      ∧ segments (move_snake uturn_snake open_arena)
          = [{ y := 6, x := 5 }, { y := 5, x := 5 }, { y := 5, x := 6 }, { y := 6, x := 6 },
             { y := 6, x := 5 }]
      ∧ (move_snake uturn_snake open_arena).head ∈ (move_snake uturn_snake open_arena).chain
      ∧ (move_snake uturn_snake open_arena).status = status_t.ALIVE := by
  decide

/-- C10: for every snake and every cell, `on_snake_body` returns 1 exactly
when the cell is the cell of a segment with index `i`, `0 < i < n - 1`, in the
sequence of the `n` segments from head to tail, and 0 otherwise; it returns 0
for every cell when `n` is 1 or 2. -/
theorem on_snake_body_strictly_between (y x : Int) (snake : snake_t) :
    (on_snake_body y x snake = 1 ↔
        ∃ i, 0 < i ∧ i + 1 < (segments snake).length
          ∧ (segments snake)[i]? = some { y := y, x := x })
      ∧ (on_snake_body y x snake = 0 ↔
        ¬ ∃ i, 0 < i ∧ i + 1 < (segments snake).length
          ∧ (segments snake)[i]? = some { y := y, x := x })
      ∧ ((segments snake).length ≤ 2 → on_snake_body y x snake = 0) := by
  have key : on_snake_body y x snake = 1 ↔
      ∃ i, 0 < i ∧ i + 1 < (segments snake).length
        ∧ (segments snake)[i]? = some { y := y, x := x } := by
    rw [on_snake_body_eq_one_iff, interior, mem_dropLast_iff_index]
    constructor
    · rintro ⟨j, hj, hg⟩
      exact ⟨j + 1, by omega, by simpa [segments] using hj, by simpa [segments] using hg⟩
    · rintro ⟨i, hi, hl, hg⟩
      cases i with
      | zero => omega
      | succ j => exact ⟨j, by simpa [segments] using hl, by simpa [segments] using hg⟩
  have hz : on_snake_body y x snake = 0 ↔ ¬ on_snake_body y x snake = 1 := by
    rcases bodyLoop_zero_or_one y x snake.chain with h | h <;> simp [on_snake_body, h]
  refine ⟨key, ?_, ?_⟩
  · rw [hz, key]
  · intro hlen
    rw [hz, key]
    rintro ⟨i, hi, hl, _⟩
    omega


/-! ## The item registry: lookup, removal, insertion -/

theorem findItem_append_first (y x : Int) (cur : item_t) (pre post : List item_t)
    (hpre : ∀ it ∈ pre, ¬ itemAt y x it) (hat : itemAt y x cur) :
    findItem y x (pre ++ cur :: post) = some cur := by
  induction pre with
  | nil =>
    unfold itemAt at hat
    simp [findItem, hat]
  | cons c rest ih =>
    have hc : ¬ (y = c.y ∧ x = c.x) := hpre c (List.mem_cons_self c rest)
    have hrest := ih (fun it hit => hpre it (List.mem_cons_of_mem c hit))
    rw [List.cons_append, findItem, if_neg hc]
    exact hrest

theorem unlink_eq_none (item : item_t) (l : List item_t)
    (h : ∀ it ∈ l, ¬ itemAt item.y item.x it) : unlink item l = none := by
  induction l with
  | nil => rfl
  | cons c rest ih =>
    have hc : ¬ (item.y = c.y ∧ item.x = c.x) := h c (List.mem_cons_self c rest)
    have hrest := ih (fun it hit => h it (List.mem_cons_of_mem c hit))
    simp [unlink, hc, hrest]

/-- C11: for every item registry and every cell, `on_arena_item` returns null
exactly when no item of the registry lies on the cell, and it returns `cur`
exactly when `cur` is the first item, in list order, that lies on the cell.
(The function only reads the registry: its result is the item alone.) -/
theorem on_arena_item_first (y x : Int) (arena : arena_t) :
    (on_arena_item y x arena = none ↔ ∀ it ∈ arena.items, ¬ itemAt y x it)
      ∧ ∀ cur, on_arena_item y x arena = some cur ↔
          ∃ pre post, arena.items = pre ++ cur :: post
            ∧ (∀ it ∈ pre, ¬ itemAt y x it) ∧ itemAt y x cur := by
  refine ⟨findItem_eq_none_iff y x arena.items, ?_⟩
  intro cur
  constructor
  · intro h
    obtain ⟨hat, pre, post, hsplit, hpre⟩ := findItem_eq_some y x arena.items cur h
    exact ⟨pre, post, hsplit, hpre, hat⟩
  · rintro ⟨pre, post, hsplit, hpre, hat⟩
    unfold on_arena_item
    rw [hsplit]
    exact findItem_append_first y x cur pre post hpre hat

/-- C13: for every item registry, cell and type, `add_item` returns 1 and
yields the old item list with the new item appended at the end, the bounds of
the arena unchanged.  So the lookup at every other cell is unchanged, the
lookup at the cell is afterwards not null, and when no item lay on the cell
before, it returns the new item. -/
theorem add_item_appends (y x : Int) (type : itemtype_t) (arena : arena_t) :
    (add_item y x type arena).1 = 1
      ∧ (add_item y x type arena).2
          = { arena with items := arena.items ++ [{ type := type, y := y, x := x }] }
      ∧ (∀ qy qx, ¬ (qy = y ∧ qx = x) →
          on_arena_item qy qx (add_item y x type arena).2 = on_arena_item qy qx arena)
      ∧ on_arena_item y x (add_item y x type arena).2 ≠ none
      ∧ (on_arena_item y x arena = none →
          on_arena_item y x (add_item y x type arena).2
            = some { type := type, y := y, x := x }) := by
  have hfind : ∀ (qy qx : Int) (l : List item_t),
      findItem qy qx (l ++ [{ type := type, y := y, x := x }])
        = match findItem qy qx l with
          | some it => some it
          | none => if qy = y ∧ qx = x then some { type := type, y := y, x := x } else none := by
    intro qy qx l
    induction l with
    | nil => simp [findItem]
    | cons c rest ih =>
      by_cases hc : qy = c.y ∧ qx = c.x
      · simp [findItem, hc]
      · have hcons : findItem qy qx (c :: rest) = findItem qy qx rest := by
          rw [findItem, if_neg hc]
        rw [List.cons_append, hcons, findItem, if_neg hc]
        exact ih
  refine ⟨rfl, rfl, ?_, ?_, ?_⟩
  · intro qy qx hne
    show findItem qy qx (arena.items ++ _) = findItem qy qx arena.items
    rw [hfind]
    cases findItem qy qx arena.items <;> simp [hne]
  · show findItem y x (arena.items ++ _) ≠ none
    rw [hfind]
    cases findItem y x arena.items <;> simp
  · intro hnone
    show findItem y x (arena.items ++ _) = _
    unfold on_arena_item at hnone
    rw [hfind, hnone]
    simp

/-! ## The cells the sampler draws -/

theorem tmod_add_range (r : Nat) (lo hi : Int) (h : lo < hi)
    (hlo : isShort lo) (hhi : isShort hi) :
    toShort (Int.tmod (r : Int) (hi - lo) + lo) = (r : Int) % (hi - lo) + lo
      ∧ lo ≤ (r : Int) % (hi - lo) + lo ∧ (r : Int) % (hi - lo) + lo < hi := by
  have hpos : 0 < hi - lo := by omega
  have h1 : Int.tmod (r : Int) (hi - lo) = (r : Int) % (hi - lo) :=
    Int.tmod_eq_emod (Int.ofNat_nonneg r) (le_of_lt hpos)
  have h2 : 0 ≤ (r : Int) % (hi - lo) := Int.emod_nonneg _ (ne_of_gt hpos)
  have h3 : (r : Int) % (hi - lo) < hi - lo := Int.emod_lt_of_pos _ hpos
  unfold isShort at hlo hhi
  refine ⟨?_, by omega, by omega⟩
  rw [h1]
  apply toShort_of_isShort
  unfold isShort
  omega

theorem newpos_cons_cons (r1 r2 : Nat) (more : List Nat) (snake : snake_t) (arena : arena_t) :
    newpos (r1 :: r2 :: more) snake arena
      = if arena.bottom - arena.top = 0 ∨ arena.right - arena.left = 0 then none
        else if on_snake_body (candidate r1 r2 arena).y (candidate r1 r2 arena).x snake ≠ 0
            ∨ (on_arena_item (candidate r1 r2 arena).y (candidate r1 r2 arena).x arena).isSome
          then newpos more snake arena
          else some (candidate r1 r2 arena, more) := by
  rw [newpos]
  rfl

theorem newpos_is_candidate : (rs : List Nat) → (snake : snake_t) → (arena : arena_t) →
    (p : segment_t) → (rest : List Nat) → newpos rs snake arena = some (p, rest) →
    ∃ r1 r2, p = candidate r1 r2 arena
  | [], _, _, _, _, h => by simp [newpos] at h
  | [_], _, _, _, _, h => by simp [newpos] at h
  | r1 :: r2 :: more, snake, arena, p, rest, h => by
    rw [newpos_cons_cons] at h
    split at h
    · exact absurd h (by simp)
    · split at h
      · exact newpos_is_candidate more snake arena p rest h
      · injection h with h
        injection h with hp _
        exact ⟨r1, r2, hp.symm⟩

/-- C14 as amended: for every arena with `top < bottom` and `left < right`
(its bounds being `short`s) and every pair of values `rand()` returns, the
candidate cell `newpos` draws is `rand % (bottom - top) + top`,
`rand % (right - left) + left`, and its row lies from `top` up to, but not
including, `bottom`, its column from `left` up to, but not including,
`right`. -/
theorem candidate_range (r1 r2 : Nat) (arena : arena_t)
    (hrows : arena.top < arena.bottom) (hcols : arena.left < arena.right)
    (htop : isShort arena.top) (hbottom : isShort arena.bottom)
    (hleft : isShort arena.left) (hright : isShort arena.right) :
    (candidate r1 r2 arena).y = (r1 : Int) % (arena.bottom - arena.top) + arena.top
      ∧ (candidate r1 r2 arena).x = (r2 : Int) % (arena.right - arena.left) + arena.left
      ∧ arena.top ≤ (candidate r1 r2 arena).y ∧ (candidate r1 r2 arena).y < arena.bottom
      ∧ arena.left ≤ (candidate r1 r2 arena).x ∧ (candidate r1 r2 arena).x < arena.right := by
  obtain ⟨ey, ly, uy⟩ := tmod_add_range r1 arena.top arena.bottom hrows htop hbottom
  obtain ⟨ex, lx, ux⟩ := tmod_add_range r2 arena.left arena.right hcols hleft hright
  have hy : (candidate r1 r2 arena).y
      = (r1 : Int) % (arena.bottom - arena.top) + arena.top := ey
  have hx : (candidate r1 r2 arena).x
      = (r2 : Int) % (arena.right - arena.left) + arena.left := ex
  refine ⟨hy, hx, ?_, ?_, ?_, ?_⟩
  · rw [hy]; exact ly
  · rw [hy]; exact uy
  · rw [hx]; exact lx
  · rw [hx]; exact ux

/-- C14 as amended, in the arena with rows and columns 0 to 10 and `rand()`
returning 13 and 27: the candidate is (3,7). -/
theorem candidate_range_witness :
    (candidate 13 27 open_arena).y = 3 ∧ (candidate 13 27 open_arena).x = 7 :=
  let h := candidate_range 13 27 open_arena (by decide) (by decide) (by decide) (by decide)
    (by decide) (by decide)
  ⟨h.1, h.2.1⟩

/-- C14 as stated fails: in the arena with rows and columns 0 to 10, `rand()`
returning 0 and 0 (or 10 and 20) gives the candidate (0,0), on the row `top`
and the column `left`, not strictly inside. -/
theorem candidate_on_top_left :
    open_arena.top < open_arena.bottom ∧ open_arena.left < open_arena.right
      ∧ (candidate 0 0 open_arena).y = open_arena.top
      ∧ (candidate 0 0 open_arena).x = open_arena.left
      ∧ candidate 10 20 open_arena = { y := 0, x := 0 }
      ∧ newpos [0, 0] ex_snake open_arena = some ({ y := 0, x := 0 }, []) := by
  decide

theorem newpos_strictly_inside (rs : List Nat) (snake : snake_t) (arena : arena_t)
    (p : segment_t) (rest : List Nat)
    (hrows : arena.top < arena.bottom) (hcols : arena.left < arena.right)
    (htop : isShort arena.top) (hbottom : isShort arena.bottom)
    (hleft : isShort arena.left) (hright : isShort arena.right)
    (hwalls : perimeterCovered arena)
    (h : newpos rs snake arena = some (p, rest)) :
    arena.top < p.y ∧ p.y < arena.bottom ∧ arena.left < p.x ∧ p.x < arena.right := by
  obtain ⟨r1, r2, hp⟩ := newpos_is_candidate rs snake arena p rest h
  obtain ⟨_, hfree⟩ := newpos_accepts rs snake arena p rest h
  have hnone := (findItem_eq_none_iff p.y p.x arena.items).mp hfree
  obtain ⟨ey, ly, uy⟩ := tmod_add_range r1 arena.top arena.bottom hrows htop hbottom
  obtain ⟨ex, lx, ux⟩ := tmod_add_range r2 arena.left arena.right hcols hleft hright
  have hy : p.y = (r1 : Int) % (arena.bottom - arena.top) + arena.top := by
    rw [hp]; exact ey
  have hx : p.x = (r2 : Int) % (arena.right - arena.left) + arena.left := by
    rw [hp]; exact ex
  rw [← hy] at ly uy
  rw [← hx] at lx ux
  have hedge : ¬ (p.y = arena.top ∨ p.y = arena.bottom ∨ p.x = arena.left
      ∨ p.x = arena.right) := by
    intro he
    obtain ⟨it, hit, hat⟩ := hwalls p.y p.x ly (le_of_lt uy) lx (le_of_lt ux) he
    exact hnone it hit hat
  omega

/-- C20: for every arena with `top < bottom` and `left < right` (its bounds
being `short`s) whose registry holds an item on every cell of the outer
rectangle perimeter, and every sequence of `rand()` values on which `newpos`
terminates, the cell `newpos` returns has its row strictly between `top` and
`bottom` and its column strictly between `left` and `right`. -/
theorem newpos_inside_walls (rs : List Nat) (snake : snake_t) (arena : arena_t)
    (p : segment_t) (rest : List Nat)
    (hrows : arena.top < arena.bottom) (hcols : arena.left < arena.right)
    (htop : isShort arena.top) (hbottom : isShort arena.bottom)
    (hleft : isShort arena.left) (hright : isShort arena.right)
    (hwalls : perimeterCovered arena)
    (h : newpos rs snake arena = some (p, rest)) :
    arena.top < p.y ∧ p.y < arena.bottom ∧ arena.left < p.x ∧ p.x < arena.right :=
  newpos_strictly_inside rs snake arena p rest hrows hcols htop hbottom hleft hright hwalls h

theorem perimeterCovered_walled_arena : perimeterCovered walled_arena := by
  intro y x h1 h2 h3 h4 _
  simp only [walled_arena] at h1 h2 h3 h4
  have hy : y = 0 ∨ y = 1 ∨ y = 2 ∨ y = 3 ∨ y = 4 := by omega
  have hx : x = 0 ∨ x = 1 ∨ x = 2 ∨ x = 3 ∨ x = 4 := by omega
  rcases hy with rfl | rfl | rfl | rfl | rfl <;>
    rcases hx with rfl | rfl | rfl | rfl | rfl <;>
    simp_all [walled_arena, wall, itemAt]

/-- C20 in the arena of 5 rows and 5 columns with its boundary walls and one
more wall at (2,3): the draws (0,0) (a boundary wall) and (2,3) are rejected
and (1,1) is returned. -/
theorem newpos_inside_walls_witness :
    newpos [0, 0, 2, 3, 1, 1] centre_snake walled_arena = some ({ y := 1, x := 1 }, [])
      ∧ walled_arena.top < (1 : Int) ∧ (1 : Int) < walled_arena.bottom
      ∧ walled_arena.left < (1 : Int) ∧ (1 : Int) < walled_arena.right :=
  ⟨by decide,
    newpos_inside_walls [0, 0, 2, 3, 1, 1] centre_snake walled_arena { y := 1, x := 1 } []
      (by decide) (by decide) (by decide) (by decide) (by decide) (by decide)
      perimeterCovered_walled_arena (by decide)⟩

/-! ## Invariants of the tick -/

theorem tick_registry (rs : List Nat) (snake : snake_t) (arena : arena_t)
    (snake2 : snake_t) (arena2 : arena_t) (rest : List Nat)
    (htick : tick rs snake arena = some ((snake2, arena2), rest)) :
    arena2 = arena
      ∨ ∃ pre cur post, ∃ p : segment_t, arena.items = pre ++ cur :: post
          ∧ cur.type = itemtype_t.ITEM_FOOD
          ∧ itemAt (move_snake snake arena).head.y (move_snake snake arena).head.x cur
          ∧ (∀ it ∈ pre,
              ¬ itemAt (move_snake snake arena).head.y (move_snake snake arena).head.x it)
          ∧ arena2 = { arena with
              items := pre ++ post ++ [{ type := itemtype_t.ITEM_FOOD, y := p.y, x := p.x }] }
          ∧ (∀ it ∈ pre ++ post, ¬ itemAt p.y p.x it) := by
  cases hfind : on_arena_item (move_snake snake arena).head.y
      (move_snake snake arena).head.x arena with
  | none =>
    left
    unfold tick at htick
    simp only [hfind, Option.some.injEq, Prod.mk.injEq] at htick
    exact htick.1.2.symm
  | some cur =>
    cases hty : cur.type with
    | ITEM_WALL =>
      left
      unfold tick at htick
      simp only [hfind, hty, Option.some.injEq, Prod.mk.injEq] at htick
      exact htick.1.2.symm
    | ITEM_FOOD =>
      right
      obtain ⟨hat, pre, post, hsplit, hpre⟩ := findItem_eq_some _ _ _ _ hfind
      have ht := tick_food rs snake arena cur pre post hfind hty hsplit
        (itemAt_pre_of_found hat hpre)
      rw [htick] at ht
      cases hnew : newpos rs (add_segment (move_snake snake arena))
          { arena with items := pre ++ post } with
      | none => rw [hnew] at ht; exact absurd ht (by simp)
      | some r =>
        obtain ⟨p, rest2⟩ := r
        rw [hnew] at ht
        simp only [Option.some.injEq, Prod.mk.injEq] at ht
        obtain ⟨hitems, _⟩ := newpos_free _ _ _ _ _ hnew
        exact ⟨pre, cur, post, p, hsplit, hty, hat, hpre, ht.1.2, hitems⟩

theorem wallItems_append (l m : List item_t) :
    wallItems (l ++ m) = wallItems l ++ wallItems m := by
  simp [wallItems]

theorem wallItems_food_cons (cur : item_t) (l : List item_t)
    (h : cur.type = itemtype_t.ITEM_FOOD) : wallItems (cur :: l) = wallItems l := by
  simp [wallItems, h]

/-- C15: for every state and every tick that ends (for every cell the
sampler returns), the sub-list of the Wall items of the registry is the same
after the tick as before it; the registry is either unchanged, or it lost
exactly one item, a Food item on the new head cell (the first item on that
cell), and got one Food item appended. -/
theorem tick_keeps_walls (rs : List Nat) (snake : snake_t) (arena : arena_t)
    (snake2 : snake_t) (arena2 : arena_t) (rest : List Nat)
    (htick : tick rs snake arena = some ((snake2, arena2), rest)) :
    wallItems arena2.items = wallItems arena.items
      ∧ (arena2.items = arena.items
        ∨ ∃ pre cur post, ∃ p : segment_t, arena.items = pre ++ cur :: post
            ∧ cur.type = itemtype_t.ITEM_FOOD
            ∧ itemAt (move_snake snake arena).head.y (move_snake snake arena).head.x cur
            ∧ (∀ it ∈ pre,
                ¬ itemAt (move_snake snake arena).head.y (move_snake snake arena).head.x it)
            ∧ arena2.items
                = pre ++ post ++ [{ type := itemtype_t.ITEM_FOOD, y := p.y, x := p.x }]) := by
  rcases tick_registry rs snake arena snake2 arena2 rest htick with h |
      ⟨pre, cur, post, p, hsplit, hty, hat, hpre, ha, _⟩
  · rw [h]
    exact ⟨rfl, Or.inl rfl⟩
  · have hitems : arena2.items
        = pre ++ post ++ [{ type := itemtype_t.ITEM_FOOD, y := p.y, x := p.x }] := by
      rw [ha]
    refine ⟨?_, Or.inr ⟨pre, cur, post, p, hsplit, hty, hat, hpre, hitems⟩⟩
    rw [hitems, hsplit]
    simp only [wallItems_append, wallItems_food_cons cur post hty]
    simp [wallItems]

/-- C15 at a tick that eats: the walls of the 5 by 5 arena stay when the
snake at its centre, heading left, eats a Food item at (2,1). -/
theorem tick_keeps_walls_witness :
    wallItems (walled_arena.items ++ [{ type := itemtype_t.ITEM_FOOD, y := 3, x := 3 }])
      = wallItems (walled_arena.items ++ [{ type := itemtype_t.ITEM_FOOD, y := 2, x := 1 }]) :=
  (tick_keeps_walls [3, 3] { centre_snake with dir := dir_t.LEFT }
    { walled_arena with
      items := walled_arena.items ++ [{ type := itemtype_t.ITEM_FOOD, y := 2, x := 1 }] }
    { centre_snake with dir := dir_t.LEFT, head := { y := 2, x := 1 },
                        chain := [{ y := 2, x := 1 }] }
    { walled_arena with
      items := walled_arena.items ++ [{ type := itemtype_t.ITEM_FOOD, y := 3, x := 3 }] }
    [] (by decide)).1

theorem distinctCells_remove (pre post : List item_t) (cur : item_t)
    (h : distinctCells (pre ++ cur :: post)) : distinctCells (pre ++ post) := by
  unfold distinctCells at h ⊢
  rw [List.pairwise_append] at h ⊢
  obtain ⟨h1, h2, h3⟩ := h
  rw [List.pairwise_cons] at h2
  exact ⟨h1, h2.2, fun a ha b hb => h3 a ha b (List.mem_cons_of_mem cur hb)⟩

theorem distinctCells_add (l : List item_t) (type : itemtype_t) (y x : Int)
    (h : distinctCells l) (hfree : ∀ it ∈ l, ¬ itemAt y x it) :
    distinctCells (l ++ [{ type := type, y := y, x := x }]) := by
  unfold distinctCells at h ⊢
  rw [List.pairwise_append]
  refine ⟨h, List.pairwise_singleton _ _, ?_⟩
  intro a ha b hb
  rw [List.mem_singleton] at hb
  subst hb
  intro hab
  exact hfree a ha ⟨hab.1.symm, hab.2.symm⟩

/-- C16: when no two items of the registry share a cell, this is still so
after an item of any type is added at a cell `newpos` returned, and after any
tick that ends (with its removal and respawn of food). -/
theorem distinct_cells_invariant (arena : arena_t) (hd : distinctCells arena.items) :
    (∀ rs snake p rest type, newpos rs snake arena = some (p, rest) →
        distinctCells (add_item p.y p.x type arena).2.items)
      ∧ (∀ rs snake snake2 arena2 rest,
          tick rs snake arena = some ((snake2, arena2), rest) →
          distinctCells arena2.items) := by
  constructor
  · intro rs snake p rest type hnew
    obtain ⟨hfree, _⟩ := newpos_free rs snake arena p rest hnew
    exact distinctCells_add arena.items type p.y p.x hd hfree
  · intro rs snake snake2 arena2 rest htick
    rcases tick_registry rs snake arena snake2 arena2 rest htick with h |
        ⟨pre, cur, post, p, hsplit, _, _, _, ha, hfree⟩
    · rw [h]; exact hd
    · rw [ha]
      rw [hsplit] at hd
      exact distinctCells_add (pre ++ post) itemtype_t.ITEM_FOOD p.y p.x
        (distinctCells_remove pre post cur hd) hfree

/-- C16 in the 5 by 5 arena with its walls: a wall added at the sampled cell
(1,1) keeps the cells distinct. -/
theorem distinct_cells_invariant_witness :
    distinctCells (add_item 1 1 itemtype_t.ITEM_WALL walled_arena).2.items :=
  (distinct_cells_invariant walled_arena (by decide)).1 [0, 0, 1, 1] centre_snake
    { y := 1, x := 1 } [] itemtype_t.ITEM_WALL (by decide)

/-! ## Status of the snake -/

theorem get_input_status_dead (ch : key_t) (snake : snake_t)
    (h : snake.status = status_t.DEAD) : (get_input ch snake).status = status_t.DEAD := by
  unfold get_input
  split <;> first | exact h | rfl | (split <;> exact h)

theorem move_snake_status_dead (snake : snake_t) (arena : arena_t)
    (h : snake.status = status_t.DEAD) : (move_snake snake arena).status = status_t.DEAD := by
  rw [move_snake_status_of_can_move]
  split
  · rfl
  · exact h

/-- C17: `DEAD` is absorbing.  For every snake whose status is `DEAD`, the
status is `DEAD` after `move_snake`, after every tick that ends (whatever the
item check does: growth, removal and respawn, or a wall), after the input step
with any key, after `add_segment` and after `die`. -/
theorem dead_is_absorbing (snake : snake_t) (hdead : snake.status = status_t.DEAD) :
    (∀ arena, (move_snake snake arena).status = status_t.DEAD)
      ∧ (∀ rs arena snake2 arena2 rest,
          tick rs snake arena = some ((snake2, arena2), rest) →
          snake2.status = status_t.DEAD)
      ∧ (∀ ch, (get_input ch snake).status = status_t.DEAD)
      ∧ (add_segment snake).status = status_t.DEAD
      ∧ (die snake).status = status_t.DEAD := by
  refine ⟨fun arena => move_snake_status_dead snake arena hdead, ?_,
    fun ch => get_input_status_dead ch snake hdead, hdead, rfl⟩
  intro rs arena snake2 arena2 rest htick
  exact tick_status_of_dead rs snake arena (move_snake_status_dead snake arena hdead)
    snake2 arena2 rest htick

/-- C17 at the dead snake on (5,5), (5,4): the up key leaves it dead. -/
theorem dead_is_absorbing_witness :
    (get_input key_t.KEY_UP (die ex_snake)).status = status_t.DEAD :=
  (dead_is_absorbing (die ex_snake) rfl).2.2.1 key_t.KEY_UP

/-- C18: for every alive snake and every arena, if after the move the new
head cell lies inside the inclusive bounds and differs from the cell of every
other segment of the moved snake, `move_snake` leaves the status `ALIVE`. -/
theorem move_snake_stays_alive (snake : snake_t) (arena : arena_t)
    (halive : snake.status = status_t.ALIVE)
    (hin : arena.top ≤ (move_snake snake arena).head.y
      ∧ (move_snake snake arena).head.y ≤ arena.bottom
      ∧ arena.left ≤ (move_snake snake arena).head.x
      ∧ (move_snake snake arena).head.x ≤ arena.right)
    (hfree : ∀ c ∈ (move_snake snake arena).chain, c ≠ (move_snake snake arena).head) :
    (move_snake snake arena).status = status_t.ALIVE := by
  have hcan : ¬ can_move (moveHead (relocateTail snake)) arena = 0 := by
    rw [can_move_eq_zero_iff, ← move_snake_head snake arena, ← move_snake_interior snake arena]
    rintro (hout | hmem)
    · omega
    · exact hfree _ (List.mem_of_mem_dropLast hmem) rfl
  rw [move_snake_status_of_can_move, if_neg hcan]
  exact halive

/-- C18 at the snake on (5,5), (5,4) heading right in the arena with rows
and columns 0 to 10: it is alive on (5,6), (5,5). -/
theorem move_snake_stays_alive_witness :
    (move_snake ex_snake open_arena).status = status_t.ALIVE :=
  move_snake_stays_alive ex_snake open_arena rfl (by decide) (by decide)

/-! ## Contiguity of the body -/

theorem contiguous_dropLast : (l : List segment_t) → contiguous l → contiguous l.dropLast
  | [], _ => trivial
  | [_], _ => trivial
  | [_, _], _ => trivial
  | a :: b :: c :: rest, h => by
    rw [List.dropLast_cons₂, List.dropLast_cons₂]
    have ih := contiguous_dropLast (b :: c :: rest) h.2
    rw [List.dropLast_cons₂] at ih
    exact ⟨h.1, ih⟩

theorem contiguous_append_last : (s : segment_t) → (l : List segment_t) →
    contiguous (s :: l) → contiguous (s :: l ++ [lastSeg s l])
  | s, [], _ => by
    show manhattan s s ≤ 1 ∧ True
    simp [manhattan]
  | s, c :: rest, h => by
    have ih := contiguous_append_last c rest h.2
    exact ⟨h.1, ih⟩

theorem contiguous_cons_dropLast (n h : segment_t) (chain : List segment_t)
    (hstep : manhattan n h ≤ 1) (hc : contiguous (h :: chain)) :
    contiguous (n :: (h :: chain).dropLast) := by
  have hd := contiguous_dropLast (h :: chain) hc
  cases chain with
  | nil => trivial
  | cons c rest =>
    rw [List.dropLast_cons₂] at hd ⊢
    exact ⟨hstep, hd⟩

theorem moveHead_head_of_fits (snake : snake_t)
    (hy : isShort (snake.head.y + (delta snake.dir).1))
    (hx : isShort (snake.head.x + (delta snake.dir).2)) :
    (moveHead snake).head
      = { y := snake.head.y + (delta snake.dir).1, x := snake.head.x + (delta snake.dir).2 } := by
  unfold moveHead
  cases hd : snake.dir <;> rw [hd] at hy hx <;> simp only [delta] at hy hx ⊢
  · simp
  · rw [show snake.head.y - 1 = snake.head.y + -1 by omega, toShort_of_isShort hy]
    simp
  · rw [toShort_of_isShort hx]
    simp
  · rw [toShort_of_isShort hy]
    simp
  · rw [show snake.head.x - 1 = snake.head.x + -1 by omega, toShort_of_isShort hx]
    simp

theorem manhattan_delta (c : segment_t) (d : dir_t) :
    manhattan { y := c.y + (delta d).1, x := c.x + (delta d).2 } c ≤ 1 := by
  cases d <;> simp [manhattan, delta]

theorem move_snake_contiguous_of_fits (snake : snake_t) (arena : arena_t)
    (hc : contiguous (segments snake))
    (hy : isShort (snake.head.y + (delta snake.dir).1))
    (hx : isShort (snake.head.x + (delta snake.dir).2)) :
    contiguous (segments (move_snake snake arena)) := by
  have hseg : segments (move_snake snake arena)
      = (moveHead (relocateTail snake)).head :: (segments snake).dropLast := by
    have h1 := segments_relocateTail snake
    unfold segments at h1 ⊢
    rw [move_snake_head, move_snake_chain, moveHead_chain]
    injection h1 with _ h2
    rw [h2]
  rw [hseg, moveHead_head_of_fits _ (by rw [relocateTail_head, relocateTail_dir]; exact hy)
    (by rw [relocateTail_head, relocateTail_dir]; exact hx), relocateTail_head,
    relocateTail_dir]
  exact contiguous_cons_dropLast _ snake.head snake.chain
    (manhattan_delta snake.head snake.dir) hc

theorem move_snake_contiguous_inside (snake : snake_t) (arena : arena_t)
    (hc : contiguous (segments snake))
    (htop : isShort arena.top) (hbottom : isShort arena.bottom)
    (hleft : isShort arena.left) (hright : isShort arena.right)
    (hin : inside snake.head arena) :
    contiguous (segments (move_snake snake arena)) := by
  unfold inside at hin
  unfold isShort at htop hbottom hleft hright
  apply move_snake_contiguous_of_fits snake arena hc
  · unfold isShort
    cases snake.dir <;> simp only [delta] <;> omega
  · unfold isShort
    cases snake.dir <;> simp only [delta] <;> omega

theorem add_segment_contiguous (snake : snake_t) (hc : contiguous (segments snake)) :
    contiguous (segments (add_segment snake)) :=
  contiguous_append_last snake.head snake.chain hc

/-! ## The states of the game loop -/

theorem status_ne_dead_iff (snake : snake_t) :
    snake.status ≠ status_t.DEAD ↔ snake.status = status_t.ALIVE := by
  cases snake.status <;> simp

theorem move_snake_in_bounds_of_alive (snake : snake_t) (arena : arena_t)
    (h : (move_snake snake arena).status ≠ status_t.DEAD) :
    arena.top ≤ (move_snake snake arena).head.y ∧ (move_snake snake arena).head.y ≤ arena.bottom
      ∧ arena.left ≤ (move_snake snake arena).head.x
      ∧ (move_snake snake arena).head.x ≤ arena.right := by
  rw [move_snake_status_of_can_move] at h
  have hcan : ¬ can_move (moveHead (relocateTail snake)) arena = 0 := by
    intro hz
    rw [if_pos hz] at h
    exact h rfl
  rw [can_move_eq_zero_iff, ← move_snake_head snake arena] at hcan
  omega

theorem findItem_append (y x : Int) (l m : List item_t) :
    findItem y x (l ++ m)
      = match findItem y x l with
        | some it => some it
        | none => findItem y x m := by
  induction l with
  | nil => rfl
  | cons c rest ih =>
    by_cases hc : y = c.y ∧ x = c.x
    · simp [findItem, hc]
    · have hcons : findItem y x (c :: rest) = findItem y x rest := by
        rw [findItem, if_neg hc]
      rw [List.cons_append, hcons, findItem, if_neg hc]
      exact ih

theorem findItem_wall_after_meal (y x : Int) (pre post : List item_t) (cur new w : item_t)
    (hcur : cur.type = itemtype_t.ITEM_FOOD) (hw : w.type = itemtype_t.ITEM_WALL)
    (h : findItem y x (pre ++ cur :: post) = some w) :
    findItem y x (pre ++ post ++ [new]) = some w := by
  rw [findItem_append] at h
  rw [findItem_append, findItem_append]
  cases hpre : findItem y x pre with
  | some it =>
    rw [hpre] at h
    exact h
  | none =>
    rw [hpre] at h
    simp only at h ⊢
    rw [findItem] at h
    by_cases hc : y = cur.y ∧ x = cur.x
    · rw [if_pos hc] at h
      injection h with h
      rw [h] at hcur
      rw [hcur] at hw
      exact absurd hw (by decide)
    · rw [if_neg hc] at h
      rw [h]

theorem tick_snake (rs : List Nat) (snake : snake_t) (arena : arena_t)
    (snake2 : snake_t) (arena2 : arena_t) (rest : List Nat)
    (htick : tick rs snake arena = some ((snake2, arena2), rest)) :
    (on_arena_item (move_snake snake arena).head.y (move_snake snake arena).head.x arena = none
        ∧ snake2 = move_snake snake arena)
      ∨ (∃ cur, on_arena_item (move_snake snake arena).head.y (move_snake snake arena).head.x
            arena = some cur
          ∧ cur.type = itemtype_t.ITEM_WALL ∧ snake2 = die (move_snake snake arena))
      ∨ (∃ cur, on_arena_item (move_snake snake arena).head.y (move_snake snake arena).head.x
            arena = some cur
          ∧ cur.type = itemtype_t.ITEM_FOOD ∧ snake2 = add_segment (move_snake snake arena)) := by
  cases hfind : on_arena_item (move_snake snake arena).head.y
      (move_snake snake arena).head.x arena with
  | none =>
    left
    unfold tick at htick
    simp only [hfind, Option.some.injEq, Prod.mk.injEq] at htick
    exact ⟨rfl, htick.1.1.symm⟩
  | some cur =>
    right
    cases hty : cur.type with
    | ITEM_WALL =>
      left
      unfold tick at htick
      simp only [hfind, hty, Option.some.injEq, Prod.mk.injEq] at htick
      exact ⟨cur, rfl, hty, htick.1.1.symm⟩
    | ITEM_FOOD =>
      right
      obtain ⟨hat, pre, post, hsplit, hpre⟩ := findItem_eq_some _ _ _ _ hfind
      have ht := tick_food rs snake arena cur pre post hfind hty hsplit
        (itemAt_pre_of_found hat hpre)
      rw [htick] at ht
      cases hnew : newpos rs (add_segment (move_snake snake arena))
          { arena with items := pre ++ post } with
      | none => rw [hnew] at ht; exact absurd ht (by simp)
      | some r =>
        obtain ⟨p, rest2⟩ := r
        rw [hnew] at ht
        simp only [Option.some.injEq, Prod.mk.injEq] at ht
        exact ⟨cur, rfl, hty, ht.1.1⟩

theorem tick_bounds_walled (rs : List Nat) (snake : snake_t) (arena : arena_t)
    (snake2 : snake_t) (arena2 : arena_t) (rest : List Nat)
    (htick : tick rs snake arena = some ((snake2, arena2), rest)) :
    arena2.top = arena.top ∧ arena2.bottom = arena.bottom ∧ arena2.left = arena.left
      ∧ arena2.right = arena.right ∧ (walled arena → walled arena2) := by
  rcases tick_registry rs snake arena snake2 arena2 rest htick with h |
      ⟨pre, cur, post, p, hsplit, hty, _, _, ha, _⟩
  · rw [h]
    exact ⟨rfl, rfl, rfl, rfl, fun hw => hw⟩
  · rw [ha]
    refine ⟨rfl, rfl, rfl, rfl, ?_⟩
    intro hw y x h1 h2 h3 h4 hper
    obtain ⟨w, hfind, hwall⟩ := hw y x h1 h2 h3 h4 hper
    refine ⟨w, ?_, hwall⟩
    unfold on_arena_item at hfind ⊢
    rw [hsplit] at hfind
    exact findItem_wall_after_meal y x pre post cur _ w hty hwall hfind

theorem tick_keeps_invariant (rs : List Nat) (snake : snake_t) (arena : arena_t)
    (snake2 : snake_t) (arena2 : arena_t) (rest : List Nat)
    (hinv : loop_invariant snake arena) (halive : snake.status ≠ status_t.DEAD)
    (htick : tick rs snake arena = some ((snake2, arena2), rest)) :
    loop_invariant snake2 arena2 := by
  obtain ⟨htop, hbottom, hleft, hright, hwalled, hc, hin⟩ := hinv
  obtain ⟨e1, e2, e3, e4, hw2⟩ := tick_bounds_walled rs snake arena snake2 arena2 rest htick
  have hmoved : contiguous (segments (move_snake snake arena)) :=
    move_snake_contiguous_inside snake arena hc htop hbottom hleft hright (hin halive)
  have hinside : (∀ w, on_arena_item (move_snake snake arena).head.y
        (move_snake snake arena).head.x arena = some w → w.type ≠ itemtype_t.ITEM_WALL) →
      (move_snake snake arena).status ≠ status_t.DEAD →
      inside (move_snake snake arena).head arena2 := by
    intro hnowall hst
    obtain ⟨b1, b2, b3, b4⟩ := move_snake_in_bounds_of_alive snake arena hst
    have hedge : ¬ ((move_snake snake arena).head.y = arena.top
        ∨ (move_snake snake arena).head.y = arena.bottom
        ∨ (move_snake snake arena).head.x = arena.left
        ∨ (move_snake snake arena).head.x = arena.right) := by
      intro he
      obtain ⟨w, hfind, hwall⟩ := hwalled _ _ b1 b2 b3 b4 he
      exact hnowall w hfind hwall
    unfold inside
    rw [e1, e2, e3, e4]
    omega
  refine ⟨by rw [e1]; exact htop, by rw [e2]; exact hbottom, by rw [e3]; exact hleft,
    by rw [e4]; exact hright, hw2 hwalled, ?_, ?_⟩
  · rcases tick_snake rs snake arena snake2 arena2 rest htick with ⟨_, hs⟩ | ⟨_, _, _, hs⟩ |
        ⟨_, _, _, hs⟩
    · rw [hs]; exact hmoved
    · rw [hs]; exact hmoved
    · rw [hs]; exact add_segment_contiguous _ hmoved
  · intro hst
    rcases tick_snake rs snake arena snake2 arena2 rest htick with ⟨hnone, hs⟩ |
        ⟨_, _, _, hs⟩ | ⟨cur, hfind, hfood, hs⟩
    · rw [hs] at hst ⊢
      apply hinside _ hst
      intro w hfind
      rw [hnone] at hfind
      exact absurd hfind (by simp)
    · rw [hs] at hst
      exact absurd rfl hst
    · rw [hs] at hst ⊢
      apply hinside _ hst
      intro w hfind2
      rw [hfind] at hfind2
      injection hfind2 with hcw
      rw [← hcw, hfood]
      decide

theorem get_input_segments (ch : key_t) (snake : snake_t) :
    segments (get_input ch snake) = segments snake := by
  unfold get_input segments
  split <;> first | rfl | (split <;> rfl)

theorem get_input_alive (ch : key_t) (snake : snake_t)
    (h : (get_input ch snake).status ≠ status_t.DEAD) : snake.status ≠ status_t.DEAD := by
  intro hd
  exact h (get_input_status_dead ch snake hd)

theorem get_input_keeps_invariant (ch : key_t) (snake : snake_t) (arena : arena_t)
    (hinv : loop_invariant snake arena) : loop_invariant (get_input ch snake) arena := by
  obtain ⟨htop, hbottom, hleft, hright, hwalled, hc, hin⟩ := hinv
  have hseg := get_input_segments ch snake
  refine ⟨htop, hbottom, hleft, hright, hwalled, by rw [hseg]; exact hc, ?_⟩
  intro hst
  have hhead : (get_input ch snake).head = snake.head := by
    unfold segments at hseg
    injection hseg
  rw [hhead]
  exact hin (get_input_alive ch snake hst)

theorem perimeterCovered_of_walled (arena : arena_t) (h : walled arena) :
    perimeterCovered arena := by
  intro y x h1 h2 h3 h4 hper
  obtain ⟨w, hfind, _⟩ := h y x h1 h2 h3 h4 hper
  obtain ⟨hat, pre, post, hsplit, _⟩ := findItem_eq_some y x arena.items w hfind
  exact ⟨w, by rw [hsplit]; simp, hat⟩

theorem initial_state_invariant (snake : snake_t) (arena : arena_t)
    (h : initial_state snake arena) : loop_invariant snake arena := by
  obtain ⟨_, _, hchain, htop, hbottom, hleft, hright, hrows, hcols, hwalled, rs, rest, hnew⟩ := h
  refine ⟨htop, hbottom, hleft, hright, hwalled, ?_, ?_⟩
  · unfold segments
    rw [hchain]
    trivial
  · intro _
    exact newpos_strictly_inside rs snake arena snake.head rest hrows hcols htop hbottom
      hleft hright (perimeterCovered_of_walled arena hwalled) hnew

theorem reachable_invariant (snake0 : snake_t) (arena0 : arena_t)
    (h0 : initial_state snake0 arena0) (snake : snake_t) (arena : arena_t)
    (h : Reachable snake0 arena0 snake arena) : loop_invariant snake arena := by
  induction h with
  | start => exact initial_state_invariant snake0 arena0 h0
  | iterate rs rest ch _ halive htick ih =>
    exact get_input_keeps_invariant ch _ _ (tick_keeps_invariant rs _ _ _ _ rest ih halive htick)

theorem walled_walled_arena : walled walled_arena := by
  intro y x h1 h2 h3 h4 hper
  simp only [walled_arena] at h1 h2 h3 h4 hper
  have hy : y = 0 ∨ y = 1 ∨ y = 2 ∨ y = 3 ∨ y = 4 := by omega
  have hx : x = 0 ∨ x = 1 ∨ x = 2 ∨ x = 3 ∨ x = 4 := by omega
  rcases hy with rfl | rfl | rfl | rfl | rfl <;>
    rcases hx with rfl | rfl | rfl | rfl | rfl <;>
    first
    | exact ⟨_, rfl, rfl⟩
    | (exfalso; omega)

theorem initial_state_start : initial_state start_snake walled_arena :=
  ⟨rfl, rfl, rfl, by decide, by decide, by decide, by decide, by decide, by decide,
    walled_walled_arena, [2, 2], [], by decide⟩

end Snakeses
